import Mathlib

/-!
Shallow embedding of the core of the ClanEventBot repository
(models/event.py, services/team_service.py, services/event_service.py,
services/reminder_service.py).

Modelling conventions:
* Python `datetime` instants are modelled as integer timestamps (seconds),
  except for `cleanup_old_events`, whose calendar-field arithmetic needs an
  explicit (year, month, day) representation.
* User ids and Discord handles are integers, as in the source.
* `random.shuffle` is modelled by passing the shuffled list as an explicit
  argument together with a permutation hypothesis where needed.
* Exceptions raised by the team randomizer are modelled with `Except`.
-/

/-- Python enum `EventType` from utils/constants.py. -/
inductive EventType
  | BINGO
  | PVP_TOURNAMENT
  | GENERAL
deriving DecidableEq

/-- Python enum `EventStatus` from utils/constants.py. -/
inductive EventStatus
  | OPEN
  | FULL
  | IN_PROGRESS
  | COMPLETED
  | CANCELLED
deriving DecidableEq

/-- The `Event` aggregate from models/event.py, with the fields set by
`Event.__init__`.  `created_at` and the optional instants are integer
timestamps. -/
structure Event where
  event_id : String
  event_type : EventType
  name : String
  description : String
  creator_id : Int
  guild_id : Int
  max_participants : Nat
  created_at : Int
  event_date : Option Int
  status : EventStatus
  participants : List Int
  checked_in_participants : List Int
  teams : List (List Int)
  team_size : Option Nat
  message_id : Option Int
  thread_id : Option Int
  reminder_sent : Bool
  check_in_enabled : Bool
  check_in_start_time : Option Int
  check_in_end_time : Option Int
deriving DecidableEq

/-- `Event.__init__`: the state of a freshly constructed event. -/
def new_event (event_id : String) (event_type : EventType) (name description : String)
    (creator_id guild_id : Int) (max_participants : Nat) (created_at : Int)
    (event_date : Option Int) : Event :=
  { event_id := event_id
    event_type := event_type
    name := name
    description := description
    creator_id := creator_id
    guild_id := guild_id
    max_participants := max_participants
    created_at := created_at
    event_date := event_date
    status := EventStatus.OPEN
    participants := []
    checked_in_participants := []
    teams := []
    team_size := none
    message_id := none
    thread_id := none
    reminder_sent := false
    check_in_enabled := false
    check_in_start_time := none
    check_in_end_time := none }

/-- Property `Event.is_full`: `participant_count >= max_participants`. -/
def Event.is_full (e : Event) : Bool :=
  decide (e.max_participants ≤ e.participants.length)

/-- `Event.add_participant`.  Returns the Python boolean result together with
the state of the event after the call. -/
def add_participant (e : Event) (user_id : Int) : Bool × Event :=
  if user_id ∈ e.participants then (false, e)
  else if e.is_full then (false, e)
  else
    let e1 : Event := { e with participants := e.participants ++ [user_id] }
    if e1.is_full then (true, { e1 with status := EventStatus.FULL })
    else (true, e1)

/-- The `for team in self.teams: if user_id in team: team.remove(user_id); break`
loop inside `Event.remove_participant`: the user is erased from the first team
containing them and from no other team. -/
def remove_from_first_team (teams : List (List Int)) (user_id : Int) : List (List Int) :=
  match teams with
  | [] => []
  | t :: ts =>
    if user_id ∈ t then t.erase user_id :: ts
    else t :: remove_from_first_team ts user_id

/-- `Event.remove_participant`. -/
def remove_participant (e : Event) (user_id : Int) : Bool × Event :=
  if user_id ∉ e.participants then (false, e)
  else
    let e1 : Event :=
      { e with participants := e.participants.erase user_id
               teams := remove_from_first_team e.teams user_id }
    if e.status = EventStatus.FULL ∧ ¬ e1.is_full then
      (true, { e1 with status := EventStatus.OPEN })
    else (true, e1)

/-- `Event.check_in_participant`; `now` is the value of `datetime.utcnow()`
read inside the call. -/
def check_in_participant (e : Event) (now : Int) (user_id : Int) : Bool × Event :=
  if user_id ∉ e.participants then (false, e)
  else if ¬ e.check_in_enabled then (false, e)
  else if (match e.check_in_start_time with | some s => decide (now < s) | none => false) then
    (false, e)
  else if (match e.check_in_end_time with | some t => decide (t < now) | none => false) then
    (false, e)
  else if user_id ∈ e.checked_in_participants then (false, e)
  else (true, { e with checked_in_participants := e.checked_in_participants ++ [user_id] })

/-! ## Team service (services/team_service.py) -/

/-- The valid team sizes checked by `TeamService.randomize_teams`. -/
def valid_team_sizes : List Nat := [1, 2, 3, 4, 6]

/-- The chunking loop of `TeamService.randomize_teams`:
`for i in range(0, len(l), team_size): team = l[i:i+team_size];
if len(team) == team_size: teams.append(team)`.
A trailing chunk shorter than `team_size` is discarded. -/
def make_teams (team_size : Nat) (l : List Int) : List (List Int) :=
  if h : 0 < team_size ∧ team_size ≤ l.length then
    l.take team_size :: make_teams team_size (l.drop team_size)
  else []
termination_by l.length
decreasing_by
  simp only [List.length_drop]
  exact Nat.sub_lt (Nat.lt_of_lt_of_le h.1 h.2) h.1

/-- `TeamService.randomize_teams`.  `shuffled` is the result of
`random.shuffle` on a copy of `participant_ids`; validation happens before
the shuffle, on `participant_ids` itself. -/
def randomize_teams (participant_ids : List Int) (team_size : Nat)
    (shuffled : List Int) : Except String (List (List Int)) :=
  if participant_ids = [] then
    Except.error "No participants to assign to teams"
  else if team_size ∉ valid_team_sizes then
    Except.error "Team size must be 1, 2, 3, 4, or 6 players"
  else if participant_ids.length < 1 then
    Except.error "Not enough participants for teams"
  else if 1 < team_size ∧ participant_ids.length < team_size then
    Except.error "Not enough participants for teams of this size"
  else
    Except.ok (make_teams team_size shuffled)

/-! ## Reminder scheduler (services/reminder_service.py) -/

/-- Outcome of one pass of `ReminderService._check_upcoming_events` over a
single event: whether the reminder branch fired, whether a notification was
actually posted to the thread, and the event state afterwards. -/
structure ScanResult where
  attempted : Bool
  delivered : Bool
  event : Event
deriving DecidableEq

/-- `ReminderService._send_event_reminder`; returns whether the reminder
message was actually posted.  `thread_ok tid` models
`bot.get_channel`/`bot.fetch_channel` succeeding for thread `tid`, and
`send_ok` models `thread.send` not raising.  Every failure path returns
silently (exceptions are caught and logged). -/
def send_event_reminder (e : Event) (thread_ok : Int → Bool) (send_ok : Bool) : Bool :=
  match e.thread_id with
  | none => false
  | some tid =>
    if ¬ thread_ok tid then false
    else if e.participants = [] then false
    else send_ok

/-- The per-event body of `ReminderService._check_upcoming_events`; `now` is
`datetime.utcnow()` at the start of the scan, times in seconds.  An event is
skipped when it has no `event_date` or its reminder was already sent;
otherwise the reminder fires iff
`timedelta(seconds=30) <= event_date - now <= timedelta(minutes=3)`,
and `reminder_sent` is set to `True` right after the send attempt. -/
def scan_event (now : Int) (e : Event) (thread_ok : Int → Bool) (send_ok : Bool) :
    ScanResult :=
  match e.event_date with
  | none => ⟨false, false, e⟩
  | some d =>
    if e.reminder_sent then ⟨false, false, e⟩
    else if 30 ≤ d - now ∧ d - now ≤ 180 then
      ⟨true, send_event_reminder e thread_ok send_ok, { e with reminder_sent := true }⟩
    else ⟨false, false, e⟩

/-! ## Serialization (Event.to_dict / Event.from_dict) -/

/-- The dictionary produced by `Event.to_dict`: one field per key the method
writes.  Enum members stand for their `.value` strings (the Python enums are
injective on values, so `EventStatus(value)`/`EventType(value)` invert them),
and integer timestamps stand for their lossless `isoformat` strings.
`event_date`, `thread_id` and `reminder_sent` have no key in the dict. -/
structure EventDict where
  event_id : String
  event_type : EventType
  name : String
  description : String
  creator_id : Int
  guild_id : Int
  max_participants : Nat
  created_at : Int
  status : EventStatus
  participants : List Int
  checked_in_participants : List Int
  teams : List (List Int)
  team_size : Option Nat
  message_id : Option Int
  check_in_enabled : Bool
  check_in_start_time : Option Int
  check_in_end_time : Option Int
deriving DecidableEq

/-- `Event.to_dict`. -/
def to_dict (e : Event) : EventDict :=
  { event_id := e.event_id
    event_type := e.event_type
    name := e.name
    description := e.description
    creator_id := e.creator_id
    guild_id := e.guild_id
    max_participants := e.max_participants
    created_at := e.created_at
    status := e.status
    participants := e.participants
    checked_in_participants := e.checked_in_participants
    teams := e.teams
    team_size := e.team_size
    message_id := e.message_id
    check_in_enabled := e.check_in_enabled
    check_in_start_time := e.check_in_start_time
    check_in_end_time := e.check_in_end_time }

/-- `Event.from_dict`: builds the event through the constructor (which leaves
`event_date = None`, `thread_id = None`, `reminder_sent = False` — no key of
the dict ever overwrites them) and then assigns the stored fields.  The
constructor's `datetime.utcnow()` for `created_at` is immediately overwritten
by the parsed `created_at` key, so it needs no parameter here.  The `.get`
calls with defaults always find their key on a dict built by `to_dict`.  The
`if data.get(...)` guards on the check-in instants are the `Option` matches
(an `isoformat` string is never falsy). -/
def from_dict (d : EventDict) : Event :=
  let base := new_event d.event_id d.event_type d.name d.description
    d.creator_id d.guild_id d.max_participants 0 none
  { base with
    created_at := d.created_at
    status := d.status
    participants := d.participants
    checked_in_participants := d.checked_in_participants
    teams := d.teams
    team_size := d.team_size
    message_id := d.message_id
    check_in_enabled := d.check_in_enabled
    check_in_start_time :=
      match d.check_in_start_time with
      | some s => some s
      | none => base.check_in_start_time
    check_in_end_time :=
      match d.check_in_end_time with
      | some t => some t
      | none => base.check_in_end_time }

/-! ## Registry cleanup (EventService.cleanup_old_events) -/

/-- Calendar model of the `datetime.utcnow()` value used by
`cleanup_old_events` (time-of-day fields are carried unchanged by
`.replace(day=...)` and never decide the comparisons at issue, so they are
elided). -/
structure PyDate where
  year : Int
  month : Int
  day : Int
deriving DecidableEq

/-- Days in a month, as Python's `datetime` validates them. -/
def days_in_month (year month : Int) : Int :=
  if month = 2 then
    if year % 4 = 0 ∧ (year % 100 ≠ 0 ∨ year % 400 = 0) then 29 else 28
  else if month = 4 ∨ month = 6 ∨ month = 9 ∨ month = 11 then 30
  else 31

/-- `d.replace(day=new_day)`: returns `none` when Python raises
`ValueError: day is out of range for month`. -/
def replace_day (d : PyDate) (new_day : Int) : Option PyDate :=
  if 1 ≤ new_day ∧ new_day ≤ days_in_month d.year d.month then
    some { d with day := new_day }
  else none

/-- Python `datetime` ordering (lexicographic on the calendar fields). -/
def date_lt (a b : PyDate) : Bool :=
  decide (a.year < b.year) ||
    (a.year == b.year &&
      (decide (a.month < b.month) || (a.month == b.month && decide (a.day < b.day))))

/-- `EventService.cleanup_old_events`, acting on the registry restricted to
the data it reads: the `created_at` of each stored event, keyed by id.
`cutoff_date = utcnow().replace(day=utcnow().day - days)`; if `replace`
raises, the `except` clause returns 0 and nothing is deleted.  Otherwise
every event with `created_at < cutoff_date` is deleted (`delete_event`
returns `True` for each stored id) and the count is returned. -/
def cleanup_old_events (now : PyDate) (days : Int)
    (events : List (String × PyDate)) : Nat × List (String × PyDate) :=
  match replace_day now (now.day - days) with
  | none => (0, events)
  | some cutoff =>
    ((events.filter (fun p => date_lt p.2 cutoff)).length,
      events.filter (fun p => ¬ date_lt p.2 cutoff))

/-- Rata-die style day count for a civil date (days-from-civil algorithm),
used to state what a correct `now - days` cutoff means across month and year
boundaries. -/
def days_from_civil (y m d : Int) : Int :=
  let y1 := if m ≤ 2 then y - 1 else y
  let era := (if 0 ≤ y1 then y1 else y1 - 399) / 400
  let yoe := y1 - era * 400
  let doy := (153 * (if 2 < m then m - 3 else m + 9) + 2) / 5 + d - 1
  let doe := yoe * 365 + yoe / 4 - yoe / 100 + doy
  era * 146097 + doe - 719468

/-! ## Sequences of participant operations (for the §8 invariant) -/

/-- One external participant mutation on an event. -/
inductive POp
  | add (user_id : Int)
  | remove (user_id : Int)

/-- Apply one mutation, keeping the resulting event state. -/
def apply_op (e : Event) : POp → Event
  | POp.add u => (add_participant e u).2
  | POp.remove u => (remove_participant e u).2

/-- Apply a whole call sequence, left to right. -/
def run_ops (e : Event) (ops : List POp) : Event :=
  ops.foldl apply_op e

/-- The participant invariant of §3: no duplicate ids, count within capacity. -/
def pinv (e : Event) : Prop :=
  e.participants.Nodup ∧ e.participants.length ≤ e.max_participants

/-! ## Concrete events used to instantiate the theorems -/

/-- A small event with one free slot, used as a concrete instance. -/
def sample_event : Event :=
  { new_event "ev1" EventType.GENERAL "Raid" "desc" 10 20 2 0 none with
    participants := [1] }

/-- A concrete event carrying every optional field, including the three
fields `to_dict` does not serialize. -/
def rich_event : Event :=
  { event_id := "ev2"
    event_type := EventType.BINGO
    name := "Bingo night"
    description := "desc"
    creator_id := 10
    guild_id := 20
    max_participants := 10
    created_at := 100
    event_date := some 1000
    status := EventStatus.OPEN
    participants := [1, 2, 3]
    checked_in_participants := [2]
    teams := [[1, 2], [3]]
    team_size := some 2
    message_id := some 7
    thread_id := some 5
    reminder_sent := true
    check_in_enabled := true
    check_in_start_time := some 50
    check_in_end_time := some 900 }

/-! # Theorems -/

/-- C3: `randomize_teams(participantIds, teamSize)` raises an invalid-argument
error if and only if `participantIds` is empty, or `teamSize` is not one of
{1, 2, 3, 4, 6}, or `teamSize > 1` and there are fewer participants than
`teamSize`; on every other input it returns normally. -/
theorem randomize_teams_error_iff (ids : List Int) (size : Nat) (shuffled : List Int) :
    (∃ msg, randomize_teams ids size shuffled = Except.error msg) ↔
      (ids = [] ∨ size ∉ valid_team_sizes ∨ (1 < size ∧ ids.length < size)) := by
  by_cases h1 : ids = []
  · simp [randomize_teams, h1]
  · have h3 : ¬ ids.length < 1 := fun hlt =>
      h1 (List.length_eq_zero.mp (Nat.lt_one_iff.mp hlt))
    by_cases h2 : size ∈ valid_team_sizes
    · by_cases h4 : 1 < size ∧ ids.length < size
      · simp [randomize_teams, h1, h2, h3, h4]
      · simp [randomize_teams, h1, h2, h3, h4]
    · simp [randomize_teams, h1, h2, h3]

/-- C4: under the capacity invariant, `add_participant` returns `False` and
leaves the event entirely unchanged when the user is already a participant or
the event is at capacity (`participants.size == maxParticipants`); otherwise
it returns `True`, appends the user to the end of the participant sequence,
and sets status to `FULL` exactly when this addition reaches capacity. -/
theorem add_participant_spec (e : Event) (u : Int)
    (hinv : e.participants.length ≤ e.max_participants) :
    add_participant e u =
      if u ∈ e.participants ∨ e.participants.length = e.max_participants then (false, e)
      else (true, { e with
        participants := e.participants ++ [u]
        status := if e.participants.length + 1 = e.max_participants
          then EventStatus.FULL else e.status }) := by
  unfold add_participant Event.is_full
  by_cases hmem : u ∈ e.participants
  · simp [hmem]
  · by_cases hfull : e.participants.length = e.max_participants
    · simp [hmem, hfull]
    · have hlt : e.participants.length < e.max_participants := lt_of_le_of_ne hinv hfull
      have hnotle : ¬ e.max_participants ≤ e.participants.length := Nat.not_le.mpr hlt
      by_cases hreach : e.participants.length + 1 = e.max_participants
      · have hcap : e.max_participants ≤ e.participants.length + 1 := hreach.symm.le
        simp [hmem, hfull, hnotle, hreach, hcap]
      · have hcap : ¬ e.max_participants ≤ e.participants.length + 1 := by omega
        simp [hmem, hfull, hnotle, hreach, hcap]

/-- Witness for C4 at a concrete event with one free slot: adding user 2
succeeds, appends, and fills the event. -/
theorem add_participant_spec_witness :
    sample_event.participants.length ≤ sample_event.max_participants ∧
    add_participant sample_event 2 =
      if 2 ∈ sample_event.participants ∨
          sample_event.participants.length = sample_event.max_participants
      then (false, sample_event)
      else (true, { sample_event with
        participants := sample_event.participants ++ [2]
        status := if sample_event.participants.length + 1 = sample_event.max_participants
          then EventStatus.FULL else sample_event.status }) :=
  ⟨by decide, add_participant_spec sample_event 2 (by decide)⟩

/-- If the user is in no team, the team-removal loop changes nothing. -/
theorem remove_from_first_team_of_not_mem (u : Int) :
    ∀ teams : List (List Int), u ∉ teams.flatten →
      remove_from_first_team teams u = teams := by
  intro teams
  induction teams with
  | nil => intro _; rfl
  | cons t ts ih =>
    intro hu
    simp only [List.flatten_cons, List.mem_append] at hu
    push_neg at hu
    simp [remove_from_first_team, hu.1, ih hu.2]

/-- If the user occurs in some team, the loop erases them exactly from the
first such team and leaves every other team untouched. -/
theorem remove_from_first_team_decomp (u : Int) :
    ∀ teams : List (List Int), u ∈ teams.flatten →
      ∃ pre t post, teams = pre ++ t :: post ∧ u ∉ pre.flatten ∧ u ∈ t ∧
        remove_from_first_team teams u = pre ++ t.erase u :: post := by
  intro teams
  induction teams with
  | nil => intro hu; simp at hu
  | cons t ts ih =>
    intro hu
    by_cases ht : u ∈ t
    · exact ⟨[], t, ts, by simp, by simp, ht, by simp [remove_from_first_team, ht]⟩
    · have hts : u ∈ ts.flatten := by
        simp only [List.flatten_cons, List.mem_append] at hu
        exact hu.resolve_left ht
      obtain ⟨pre, t1, post, hsplit, hpre, ht1, hres⟩ := ih hts
      refine ⟨t :: pre, t1, post, by simp [hsplit], ?_, ht1, ?_⟩
      · simp only [List.flatten_cons, List.mem_append]
        push_neg
        exact ⟨ht, hpre⟩
      · simp [remove_from_first_team, ht, hres]

/-- C5: on a duplicate-free participant sequence, `remove_participant` returns
`False` with no mutation when the user is absent; otherwise it returns `True`,
deletes the user from the participant sequence, erases them from the first
team containing them and from no other team, leaves the checked-in sequence
unchanged, and reverts status from `FULL` to `OPEN` exactly when status was
`FULL` and the event is no longer at capacity. -/
theorem remove_participant_spec (e : Event) (u : Int) (hnd : e.participants.Nodup) :
    (u ∉ e.participants → remove_participant e u = (false, e)) ∧
    (u ∈ e.participants →
      remove_participant e u =
        (true, { e with
          participants := e.participants.erase u
          teams := remove_from_first_team e.teams u
          status := if e.status = EventStatus.FULL ∧
              (e.participants.erase u).length < e.max_participants
            then EventStatus.OPEN else e.status }) ∧
      u ∉ (remove_participant e u).2.participants ∧
      (remove_participant e u).2.checked_in_participants = e.checked_in_participants ∧
      (u ∉ e.teams.flatten → (remove_participant e u).2.teams = e.teams) ∧
      (u ∈ e.teams.flatten → ∃ pre t post,
        e.teams = pre ++ t :: post ∧ u ∉ pre.flatten ∧ u ∈ t ∧
        (remove_participant e u).2.teams = pre ++ t.erase u :: post)) := by
  constructor
  · intro hu
    simp [remove_participant, hu]
  · intro hu
    have heq : remove_participant e u =
        (true, { e with
          participants := e.participants.erase u
          teams := remove_from_first_team e.teams u
          status := if e.status = EventStatus.FULL ∧
              (e.participants.erase u).length < e.max_participants
            then EventStatus.OPEN else e.status }) := by
      unfold remove_participant Event.is_full
      simp [hu]
      split_ifs with h <;> rfl
    refine ⟨heq, ?_, ?_, ?_, ?_⟩
    · rw [heq]
      exact hnd.not_mem_erase
    · rw [heq]
    · intro hj
      rw [heq]
      exact remove_from_first_team_of_not_mem u e.teams hj
    · intro hj
      obtain ⟨pre, t, post, h1, h2, h3, h4⟩ := remove_from_first_team_decomp u e.teams hj
      refine ⟨pre, t, post, h1, h2, h3, ?_⟩
      rw [heq]
      exact h4

/-- Witness for C5 at a concrete event: user 2 is a participant and sits in
the first team, so removal succeeds with the described state change. -/
theorem remove_participant_spec_witness :
    rich_event.participants.Nodup ∧
    ((2 ∉ rich_event.participants → remove_participant rich_event 2 = (false, rich_event)) ∧
     (2 ∈ rich_event.participants →
       remove_participant rich_event 2 =
         (true, { rich_event with
           participants := rich_event.participants.erase 2
           teams := remove_from_first_team rich_event.teams 2
           status := if rich_event.status = EventStatus.FULL ∧
               (rich_event.participants.erase 2).length < rich_event.max_participants
             then EventStatus.OPEN else rich_event.status }) ∧
       2 ∉ (remove_participant rich_event 2).2.participants ∧
       (remove_participant rich_event 2).2.checked_in_participants =
         rich_event.checked_in_participants ∧
       (2 ∉ rich_event.teams.flatten →
         (remove_participant rich_event 2).2.teams = rich_event.teams) ∧
       (2 ∈ rich_event.teams.flatten → ∃ pre t post,
         rich_event.teams = pre ++ t :: post ∧ 2 ∉ pre.flatten ∧ 2 ∈ t ∧
         (remove_participant rich_event 2).2.teams = pre ++ t.erase 2 :: post))) :=
  ⟨by decide, remove_participant_spec rich_event 2 (by decide)⟩

/-- C7: `check_in_participant` succeeds exactly when the user is a
participant, check-in is enabled, `now` is not before a configured start nor
after a configured end (an absent bound is unbounded on that side), and the
user is not already checked in; on failure the event is unchanged, on success
the user is appended to the checked-in sequence, and a successful check-in
can never be followed by a second successful one for the same user. -/
theorem check_in_participant_spec (e : Event) (now user_id now2 : Int) :
    ((check_in_participant e now user_id).1 = true ↔
      (user_id ∈ e.participants ∧ e.check_in_enabled = true ∧
       (∀ s, e.check_in_start_time = some s → s ≤ now) ∧
       (∀ t, e.check_in_end_time = some t → now ≤ t) ∧
       user_id ∉ e.checked_in_participants)) ∧
    ((check_in_participant e now user_id).1 = false →
      (check_in_participant e now user_id).2 = e) ∧
    ((check_in_participant e now user_id).1 = true →
      (check_in_participant e now user_id).2 =
        { e with checked_in_participants := e.checked_in_participants ++ [user_id] }) ∧
    ((check_in_participant e now user_id).1 = true →
      (check_in_participant ((check_in_participant e now user_id).2) now2 user_id).1
        = false) := by
  unfold check_in_participant
  rcases hs : e.check_in_start_time with _ | s <;>
    rcases ht : e.check_in_end_time with _ | t <;>
      by_cases h1 : user_id ∈ e.participants <;>
        by_cases h2 : e.check_in_enabled <;>
          by_cases h5 : user_id ∈ e.checked_in_participants <;>
            simp [h1, h2, h5, hs, ht]
  all_goals try split_ifs with h3 h4
  all_goals try simp_all


/-- C1: for an event with a scheduled time and `reminder_sent = False`, a
scheduler scan triggers the reminder exactly when
`scheduledAt - now ∈ [30 s, 180 s]` inclusive; the triggering pass sets
`reminder_sent`, so any later scan (e.g. the second of two ticks inside the
firing window) skips the event and changes nothing — exactly one send. -/
theorem scan_event_fires_once (e : Event) (d now now2 : Int)
    (thread_ok thread_ok2 : Int → Bool) (send_ok send_ok2 : Bool)
    (hd : e.event_date = some d) (hns : e.reminder_sent = false) :
    ((scan_event now e thread_ok send_ok).attempted = true ↔
      (30 ≤ d - now ∧ d - now ≤ 180)) ∧
    ((scan_event now e thread_ok send_ok).attempted = true →
      (scan_event now e thread_ok send_ok).event.reminder_sent = true ∧
      (scan_event now2 (scan_event now e thread_ok send_ok).event
          thread_ok2 send_ok2).attempted = false ∧
      (scan_event now2 (scan_event now e thread_ok send_ok).event
          thread_ok2 send_ok2).event =
        (scan_event now e thread_ok send_ok).event) := by
  have h1 : scan_event now e thread_ok send_ok =
      if 30 ≤ d - now ∧ d - now ≤ 180 then
        ⟨true, send_event_reminder e thread_ok send_ok, { e with reminder_sent := true }⟩
      else ⟨false, false, e⟩ := by
    unfold scan_event
    rw [hd]
    simp [hns]
  by_cases hw : 30 ≤ d - now ∧ d - now ≤ 180
  · rw [h1, if_pos hw]
    refine ⟨by simpa using hw, fun _ => ⟨rfl, ?_, ?_⟩⟩
    · unfold scan_event
      simp [hd]
    · unfold scan_event
      simp [hd]
  · rw [h1, if_neg hw]
    simpa using hw

/-- A concrete event whose reminder is still pending. -/
def pending_event : Event :=
  { rich_event with reminder_sent := false }

/-- Witness for C1: an event scheduled 120 seconds after the scan time (inside
the firing window) is reminded on the first scan; a second scan 15 seconds
later skips it. -/
theorem scan_event_fires_once_witness :
    pending_event.event_date = some 1000 ∧ pending_event.reminder_sent = false ∧
    (((scan_event 880 pending_event (fun _ => true) true).attempted = true ↔
        (30 ≤ (1000 : Int) - 880 ∧ (1000 : Int) - 880 ≤ 180)) ∧
      ((scan_event 880 pending_event (fun _ => true) true).attempted = true →
        (scan_event 880 pending_event (fun _ => true) true).event.reminder_sent = true ∧
        (scan_event 895 (scan_event 880 pending_event (fun _ => true) true).event
            (fun _ => true) true).attempted = false ∧
        (scan_event 895 (scan_event 880 pending_event (fun _ => true) true).event
            (fun _ => true) true).event =
          (scan_event 880 pending_event (fun _ => true) true).event)) :=
  ⟨by decide, by decide,
    scan_event_fires_once pending_event 1000 880 895 (fun _ => true) (fun _ => true)
      true true (by decide) (by decide)⟩

/-- C10 (implicit): when a scan finds an event inside the firing window, the
latch `reminder_sent` is set even when nothing was delivered — the send step
returns silently when the event has no thread handle, when the thread cannot
be resolved, when there are no participants, or when the external send
raises — and from then on every later scan skips the event, so the reminder
is permanently forfeited. -/
theorem scan_event_forfeits_reminder (e : Event) (d now now2 : Int)
    (thread_ok thread_ok2 : Int → Bool) (send_ok send_ok2 : Bool)
    (hd : e.event_date = some d) (hns : e.reminder_sent = false)
    (hwin : 30 ≤ d - now ∧ d - now ≤ 180)
    (hfail : e.thread_id = none ∨
      (∀ tid, e.thread_id = some tid → thread_ok tid = false) ∨
      e.participants = [] ∨ send_ok = false) :
    (scan_event now e thread_ok send_ok).delivered = false ∧
    (scan_event now e thread_ok send_ok).event.reminder_sent = true ∧
    (scan_event now2 (scan_event now e thread_ok send_ok).event
        thread_ok2 send_ok2).attempted = false := by
  have h1 : scan_event now e thread_ok send_ok =
      ⟨true, send_event_reminder e thread_ok send_ok, { e with reminder_sent := true }⟩ := by
    unfold scan_event
    rw [hd]
    simp [hns, hwin]
  have h2 : send_event_reminder e thread_ok send_ok = false := by
    unfold send_event_reminder
    rcases htid : e.thread_id with _ | tid
    · rfl
    · rcases hfail with hnone | hfetch | hpart | hsend
      · rw [htid] at hnone
        exact absurd hnone (by simp)
      · simp [hfetch tid htid]
      · simp [hpart]
      · simp [hsend]
  refine ⟨by rw [h1, h2], by rw [h1], ?_⟩
  rw [h1]
  unfold scan_event
  simp [hd]

/-- Witness for C10: the external `thread.send` fails (and is swallowed), yet
the latch is set and the next scan skips the event. -/
theorem scan_event_forfeits_reminder_witness :
    pending_event.event_date = some 1000 ∧ pending_event.reminder_sent = false ∧
    (30 ≤ (1000 : Int) - 880 ∧ (1000 : Int) - 880 ≤ 180) ∧
    (pending_event.thread_id = none ∨
      (∀ tid, pending_event.thread_id = some tid → (fun _ => true : Int → Bool) tid = false) ∨
      pending_event.participants = [] ∨ false = false) ∧
    ((scan_event 880 pending_event (fun _ => true) false).delivered = false ∧
     (scan_event 880 pending_event (fun _ => true) false).event.reminder_sent = true ∧
     (scan_event 895 (scan_event 880 pending_event (fun _ => true) false).event
         (fun _ => true) true).attempted = false) :=
  ⟨by decide, by decide, by decide, Or.inr (Or.inr (Or.inr rfl)),
    scan_event_forfeits_reminder pending_event 1000 880 895 (fun _ => true) (fun _ => true)
      false true (by decide) (by decide) (by decide)
      (Or.inr (Or.inr (Or.inr rfl)))⟩

/-- Structure of the chunking loop: the concatenation of the produced teams
is an initial segment of the input, every team has exactly `team_size`
members, and there are `⌊length / team_size⌋` teams covering
`team_size * ⌊length / team_size⌋` elements (the final partial chunk is
discarded). -/
theorem make_teams_spec (size : Nat) (hs : 0 < size) :
    ∀ l : List Int,
      (∃ rest, (make_teams size l).flatten ++ rest = l) ∧
      (∀ t ∈ make_teams size l, t.length = size) ∧
      (make_teams size l).length = l.length / size ∧
      (make_teams size l).flatten.length = size * (l.length / size) := by
  intro l
  generalize hn : l.length = n
  induction n using Nat.strong_induction_on generalizing l with
  | _ n ih =>
    subst hn
    rw [make_teams]
    split
    case isTrue h =>
      have hlen : (l.drop size).length < l.length := by
        simp only [List.length_drop]
        exact Nat.sub_lt (Nat.lt_of_lt_of_le h.1 h.2) h.1
      obtain ⟨⟨rest, hrest⟩, hteams, hcount, hjoinlen⟩ :=
        ih (l.drop size).length hlen (l.drop size) rfl
      have hdiv : l.length / size = (l.length - size) / size + 1 := by
        rw [Nat.div_eq]
        simp [h]
      refine ⟨⟨rest, ?_⟩, ?_, ?_, ?_⟩
      · simp only [List.flatten_cons, List.append_assoc, hrest]
        exact List.take_append_drop size l
      · intro t ht
        simp only [List.mem_cons] at ht
        rcases ht with rfl | hmem
        · simp [List.length_take, Nat.min_eq_left h.2]
        · exact hteams t hmem
      · simp only [List.length_cons, hcount, List.length_drop, hdiv]
      · simp only [List.flatten_cons, List.length_append, hjoinlen, List.length_drop,
          hdiv, List.length_take, Nat.min_eq_left h.2]
        ring
    case isFalse h =>
      have hlt : l.length < size := by
        rcases not_and_or.mp h with h1 | h2
        · exact absurd hs h1
        · exact Nat.lt_of_not_le h2
      have hdiv : l.length / size = 0 := Nat.div_eq_of_lt hlt
      exact ⟨⟨l, by simp⟩, by simp, by simp [hdiv], by simp [hdiv]⟩

/-- C2: on a duplicate-free participant list with valid arguments,
`randomize_teams` returns the consecutive chunks of the shuffled permutation
of the input: every team has exactly `teamSize` members, no id appears in two
teams, every id comes from the input, the trailing partial chunk is
discarded, and there are exactly `⌊n / teamSize⌋` teams covering
`teamSize * ⌊n / teamSize⌋` ids (so `[1,2,3,4,5]` with size 2 always gives 2
teams covering 4 of the 5 ids). -/
theorem randomize_teams_partition (ids : List Int) (size : Nat) (shuffled : List Int)
    (hperm : shuffled.Perm ids) (hnd : ids.Nodup) (hne : ids ≠ [])
    (hsize : size ∈ valid_team_sizes) (henough : 1 < size → size ≤ ids.length) :
    ∃ teams, randomize_teams ids size shuffled = Except.ok teams ∧
      (∀ t ∈ teams, t.length = size) ∧
      teams.flatten.Nodup ∧
      (∀ x ∈ teams.flatten, x ∈ ids) ∧
      (∃ rest, teams.flatten ++ rest = shuffled) ∧
      teams.length = ids.length / size ∧
      teams.flatten.length = size * (ids.length / size) := by
  have hs : 0 < size := by
    have hcases : size = 1 ∨ size = 2 ∨ size = 3 ∨ size = 4 ∨ size = 6 := by
      simpa [valid_team_sizes] using hsize
    omega
  have h3 : ¬ ids.length < 1 := fun hlt =>
    hne (List.length_eq_zero.mp (Nat.lt_one_iff.mp hlt))
  have h4 : ¬ (1 < size ∧ ids.length < size) := by
    rintro ⟨hgt, hlt⟩
    exact absurd (henough hgt) (Nat.not_le.mpr hlt)
  have hok : randomize_teams ids size shuffled = Except.ok (make_teams size shuffled) := by
    unfold randomize_teams
    rw [if_neg hne, if_neg (not_not_intro hsize), if_neg h3, if_neg h4]
  obtain ⟨⟨rest, hrest⟩, hteams, hcount, hjoinlen⟩ := make_teams_spec size hs shuffled
  have hshnd : shuffled.Nodup := hperm.nodup_iff.mpr hnd
  have hsub : (make_teams size shuffled).flatten.Sublist shuffled := by
    have hx := List.sublist_append_left (make_teams size shuffled).flatten rest
    rwa [hrest] at hx
  have hjoin_nd : (make_teams size shuffled).flatten.Nodup :=
    List.Nodup.sublist hsub hshnd
  refine ⟨make_teams size shuffled, hok, hteams, hjoin_nd, ?_, ⟨rest, hrest⟩, ?_, ?_⟩
  · intro x hx
    exact hperm.subset (hsub.subset hx)
  · rw [hcount, hperm.length_eq]
  · rw [hjoinlen, hperm.length_eq]

/-- Witness for C2 at `randomize_teams [1,2,3,4,5] 2` with a concrete
shuffle: exactly 2 teams of size 2 covering 4 of the 5 ids. -/
theorem randomize_teams_partition_witness :
    ([3, 1, 5, 2, 4] : List Int).Perm [1, 2, 3, 4, 5] ∧
    ([1, 2, 3, 4, 5] : List Int).Nodup ∧
    ([1, 2, 3, 4, 5] : List Int) ≠ [] ∧
    2 ∈ valid_team_sizes ∧
    (1 < 2 → 2 ≤ ([1, 2, 3, 4, 5] : List Int).length) ∧
    (∃ teams, randomize_teams [1, 2, 3, 4, 5] 2 [3, 1, 5, 2, 4] = Except.ok teams ∧
      (∀ t ∈ teams, t.length = 2) ∧
      teams.flatten.Nodup ∧
      (∀ x ∈ teams.flatten, x ∈ ([1, 2, 3, 4, 5] : List Int)) ∧
      (∃ rest, teams.flatten ++ rest = [3, 1, 5, 2, 4]) ∧
      teams.length = ([1, 2, 3, 4, 5] : List Int).length / 2 ∧
      teams.flatten.length = 2 * (([1, 2, 3, 4, 5] : List Int).length / 2)) :=
  ⟨by decide, by decide, by decide, by decide, by decide,
    randomize_teams_partition [1, 2, 3, 4, 5] 2 [3, 1, 5, 2, 4]
      (by decide) (by decide) (by decide) (by decide) (by decide)⟩

/-- Neither mutation ever changes the capacity field. -/
theorem apply_op_max (e : Event) (op : POp) :
    (apply_op e op).max_participants = e.max_participants := by
  cases op with
  | add u =>
    show (add_participant e u).2.max_participants = e.max_participants
    unfold add_participant
    dsimp only []
    split_ifs <;> rfl
  | remove u =>
    show (remove_participant e u).2.max_participants = e.max_participants
    unfold remove_participant
    dsimp only []
    split_ifs <;> rfl

/-- One `add_participant`/`remove_participant` call preserves the §3 participant invariant. -/
theorem apply_op_pinv (e : Event) (op : POp) (h : pinv e) : pinv (apply_op e op) := by
  obtain ⟨hnd, hle⟩ := h
  cases op with
  | add u =>
    show pinv (add_participant e u).2
    unfold add_participant Event.is_full
    by_cases hmem : u ∈ e.participants
    · simpa [hmem] using ⟨hnd, hle⟩
    · by_cases hfull : e.max_participants ≤ e.participants.length
      · simpa [hmem, hfull] using ⟨hnd, hle⟩
      · have hnd2 : (e.participants ++ [u]).Nodup := by
          simp [List.nodup_append, hnd, hmem]
        have hle2 : e.participants.length + 1 ≤ e.max_participants := by omega
        by_cases hreach : e.max_participants ≤ e.participants.length + 1 <;>
          simpa [hmem, hfull, hreach, pinv] using ⟨hnd2, hle2⟩
  | remove u =>
    show pinv (remove_participant e u).2
    unfold remove_participant Event.is_full
    by_cases hmem : u ∈ e.participants
    · have hnd2 : (e.participants.erase u).Nodup := hnd.erase u
      have hle2 : (e.participants.erase u).length ≤ e.max_participants :=
        le_trans ((e.participants.erase_sublist u).length_le) hle
      rw [if_neg (not_not_intro hmem)]
      dsimp only []
      split_ifs <;> simpa [pinv] using ⟨hnd2, hle2⟩
    · simpa [hmem] using ⟨hnd, hle⟩

/-- The invariant is preserved by any call sequence. -/
theorem run_ops_pinv (ops : List POp) : ∀ e : Event, pinv e → pinv (run_ops e ops) := by
  induction ops with
  | nil => exact fun e h => h
  | cons op ops ih =>
    intro e h
    exact ih (apply_op e op) (apply_op_pinv e op h)

/-- Capacity is unchanged by any call sequence. -/
theorem run_ops_max (ops : List POp) : ∀ e : Event,
    (run_ops e ops).max_participants = e.max_participants := by
  induction ops with
  | nil => exact fun e => rfl
  | cons op ops ih =>
    intro e
    rw [run_ops, List.foldl_cons, ← run_ops, ih (apply_op e op), apply_op_max]

/-- C6: starting from a freshly created event, after any finite sequence of
`add_participant`/`remove_participant` calls the participant sequence has no
duplicate ids and its length never exceeds `max_participants`. -/
theorem run_ops_invariant (event_id : String) (event_type : EventType)
    (name description : String) (creator_id guild_id : Int)
    (max_participants : Nat) (created_at : Int) (event_date : Option Int)
    (ops : List POp) :
    (run_ops (new_event event_id event_type name description creator_id guild_id
        max_participants created_at event_date) ops).participants.Nodup ∧
    (run_ops (new_event event_id event_type name description creator_id guild_id
        max_participants created_at event_date) ops).participants.length ≤
      max_participants := by
  have h0 : pinv (new_event event_id event_type name description creator_id guild_id
      max_participants created_at event_date) := by
    constructor
    · simp [new_event]
    · simp [new_event]
  have h := run_ops_pinv ops _ h0
  obtain ⟨h1, h2⟩ := h
  refine ⟨h1, ?_⟩
  rwa [run_ops_max] at h2

/-- C8 counterexample: `to_dict` writes no key for `event_date`, `thread_id`
or `reminder_sent`, so the round trip resets the scheduled time, the thread
handle and the reminder latch to their constructor defaults — the §3 fields
do NOT all round-trip. -/
theorem to_from_dict_drops_fields :
    (from_dict (to_dict rich_event)).event_date = none ∧
    rich_event.event_date = some 1000 ∧
    (from_dict (to_dict rich_event)).thread_id = none ∧
    rich_event.thread_id = some 5 ∧
    (from_dict (to_dict rich_event)).reminder_sent = false ∧
    rich_event.reminder_sent = true ∧
    from_dict (to_dict rich_event) ≠ rich_event := by
  refine ⟨rfl, rfl, rfl, rfl, rfl, rfl, ?_⟩
  decide

/-- C8 (amended): `from_dict ∘ to_dict` restores every §3 field except
`scheduledAt`, the external thread handle and the `reminderSent` latch, which
are reset to `none`/`none`/`false`; team membership validity is not
re-checked on import. -/
theorem to_from_dict_roundtrip (e : Event) :
    from_dict (to_dict e) =
      { e with event_date := none, thread_id := none, reminder_sent := false } := by
  rcases e with ⟨id, ty, nm, ds, ci, gi, mp, ca, ed, st, ps, cps, ts, tsz, mi, ti, rs,
    ce, cs, cte⟩
  cases cs <;> cases cte <;> rfl

/-- C9: `cleanup_old_events` builds its cutoff with
`utcnow().replace(day=utcnow().day - days)`.  On 2024-03-03 with `days = 7`
the day-of-month subtraction yields -4, `replace` raises `ValueError`, the
`except` clause returns 0, and an event created 2024-02-20 — 12 > 7 days old,
hence deletable under the claimed `now - days` cutoff — survives. -/
theorem cleanup_old_events_day_subtraction_bug :
    cleanup_old_events ⟨2024, 3, 3⟩ 7 [("e1", ⟨2024, 2, 20⟩)] =
      (0, [("e1", ⟨2024, 2, 20⟩)]) ∧
    days_from_civil 2024 3 3 - days_from_civil 2024 2 20 = 12 ∧
    (7 : Int) < 12 := by
  refine ⟨?_, by decide, by decide⟩
  decide
